import Mathlib

/-!
Verification development for a Discord RAG chatbot pipeline.

Shallow embedding of the core domain logic:
* token counter (`src/domain/common/token-counter.ts`)
* chunking engine (`src/domain/common/chunking-service.ts`)
* retrieval candidate ordering and answer assembly (`src/domain/chat/chat-service.ts`)
* sync runner job acquisition and cursor updates (`src/domain/sync/sync-runner.ts`,
  sync service)
* embed worker queue processing (embed worker module)

External collaborators (Gemini API, Supabase round-trips, Discord fetches) are
modelled as explicit oracle parameters; the database is modelled as in-memory
lists of rows with the exact filter/update semantics the code requests.
-/

namespace RagBot

/-! ## Token counter (`token-counter.ts`) -/

/-- The retryable-error signatures of `token-counter.ts`
(`RETRYABLE_ERRORS = ['429', '500', '502', '503', '504', 'rate limit', 'timeout']`). -/
def RETRYABLE_ERRORS : List String :=
  ["429", "500", "502", "503", "504", "rate limit", "timeout"]

/-- JS `String.prototype.includes`: `pat` occurs contiguously in `hay`. -/
def hasSubstr (hay pat : String) : Bool :=
  hay.toList.tails.any (fun t => pat.toList.isPrefixOf t)

/-- `RETRYABLE_ERRORS.some((sig) => message.includes(sig))`. -/
def isRetryableMessage (message : String) : Bool :=
  RETRYABLE_ERRORS.any (fun sig => hasSubstr message sig)

/-- Outcome of one `model.countTokens` API call: success carries the optional
`totalTokens` field of the response, failure carries the error message. -/
inductive AttemptOutcome
  | success (totalTokens : Option Nat)
  | failure (message : String)

/-- One run of the `while (attempt < maxRetries)` loop of `countPrecisely`,
with `maxRetries = 5`.  `outcomes i` is the result of the `i`-th API call.
Returns `(result, callsMade, backoffWaitsMs)`:
* on success the returned count is `totalTokens ?? estimate(text)`;
* a failure whose message matches a retryable signature, while
  `attempt < maxRetries - 1`, sleeps `Math.pow(2, attempt) * 250` ms and retries;
* any other failure returns `estimate(text)` immediately. -/
def countPreciselyGo (estimateVal : Nat) (outcomes : Nat → AttemptOutcome) :
    Nat → Nat × Nat × List Nat
  | attempt =>
    if _h : attempt < 5 then
      match outcomes attempt with
      | .success n => (n.getD estimateVal, 1, [])
      | .failure msg =>
        if isRetryableMessage msg && decide (attempt < 4) then
          let r := countPreciselyGo estimateVal outcomes (attempt + 1)
          (r.1, r.2.1 + 1, (2 ^ attempt * 250) :: r.2.2)
        else
          (estimateVal, 1, [])
    else
      (estimateVal, 0, [])
  termination_by attempt => 5 - attempt

/-- `countPrecisely(text)`: the loop starts at `attempt = 0`; the trailing
`return estimate(text)` after the loop is the `attempt ≥ 5` branch of
`countPreciselyGo`. -/
def countPreciselyRun (estimateVal : Nat) (outcomes : Nat → AttemptOutcome) :
    Nat × Nat × List Nat :=
  countPreciselyGo estimateVal outcomes 0

/-- `text.slice(0, n)` for a non-negative JS index `n`. -/
def strTake (s : String) (n : Int) : String :=
  String.mk (s.toList.take n.toNat)

/-- The binary-search loop of `truncate`: JS state `(left, right, best)` with
`mid = Math.floor((left + right) / 2)`; a prefix whose precise count is within
`limit` moves `left` past `mid` and records `best = mid`, otherwise `right`
drops below `mid`.  Division on `Int` is floor division, matching JS
`Math.floor` on the non-negative values reachable from the initial state. -/
def truncateSearch (count : String → Nat) (limit : Int) (text : String) :
    Int → Int → Int → Int
  | left, right, best =>
    if _h : left ≤ right then
      let mid := (left + right) / 2
      if (count (strTake text mid) : Int) ≤ limit then
        truncateSearch count limit text (mid + 1) right mid
      else
        truncateSearch count limit text left (mid - 1) best
    else
      best
  termination_by left right _ => (right + 1 - left).toNat

/-- The break characters of `truncate`
(`['\n', '。', '、', '.', ',', ' ', '\x7d', ']', ')']`). -/
def breakPoints : List Char :=
  ['\n', '。', '、', '.', ',', ' ', '\x7d', ']', ')']

/-- The backward scan of `truncate`: from index `i` down to `lo`
(`Math.max(0, output.length - 100)`), the first break character found. -/
def snapAux (cs : List Char) (lo : Nat) : Nat → Option Nat
  | i =>
    if i < lo then none
    else if breakPoints.contains (cs.getD i ' ') then some i
    else if i = 0 then none
    else snapAux cs lo (i - 1)
  termination_by i => i

/-- The break-snapping pass of `truncate`: snap `output` back to just after the
last break character within its final 100 characters, if any. -/
def snapToBreak (cs : List Char) : List Char :=
  match cs.length with
  | 0 => cs
  | n + 1 =>
    match snapAux cs (cs.length - 100) n with
    | some i => cs.take (i + 1)
    | none => cs

/-- `truncate(text, limit)`: binary-search the longest prefix with precise
count ≤ `limit` (the precise counter is the oracle `count`, cf. `countPrecisely`),
then snap backward to a break character. -/
def truncateModel (count : String → Nat) (text : String) (limit : Int) : String :=
  let best := truncateSearch count limit text 0 (text.toList.length : Int) 0
  String.mk (snapToBreak (text.toList.take best.toNat))

/-- Result record of `ensureWithinLimit`. -/
structure EnsureResult where
  text : String
  tokens : Nat
  truncated : Bool
  deriving DecidableEq, Repr

/-- `ensureWithinLimit(text)` of `token-counter.ts`, parametric in the local
estimator `estimate` and the precise counter `count` (the value produced by
`countPrecisely`, which never throws): return unchanged if the estimate fits
within `maxTokens - safetyMargin`; otherwise count precisely and return
unchanged if that fits within `maxTokens`; otherwise truncate to
`maxTokens - safetyMargin`. -/
def ensureWithinLimitModel (estimate count : String → Nat)
    (maxTokens safetyMargin : Int) (text : String) : EnsureResult :=
  let approx := estimate text
  if (approx : Int) ≤ maxTokens - safetyMargin then
    ⟨text, approx, false⟩
  else
    let precise := count text
    if (precise : Int) ≤ maxTokens then
      ⟨text, precise, false⟩
    else
      let t := truncateModel count text (maxTokens - safetyMargin)
      ⟨t, count t, true⟩

/-! ## Chunking engine (`chunking-service.ts`, `chunking.ts`) -/

/-- `DiscordMessage` of `chunking.ts`; `createdAt` is the JS `Date` as epoch
milliseconds (`Date#getTime`). -/
structure DiscordMessage where
  id : String
  content : String
  createdAt : Int
  isTopLevel : Bool
  deriving DecidableEq, Repr

/-- `MessageWindow` of `chunking.ts`; `startAt`/`endAt` in epoch milliseconds. -/
structure MessageWindow where
  windowSeq : Nat
  messageIds : List String
  startAt : Int
  endAt : Int
  tokenCount : Nat
  text : String
  deriving DecidableEq, Repr

/-- `Required<ChunkingOptions>` (defaults 1200 / 5 / 0). -/
structure ChunkingConfig where
  maxTokensPerWindow : Nat
  softGapMinutes : Int
  overlapMessages : Nat
  deriving DecidableEq, Repr

/-- The token-counter collaborator of the chunker: the local estimator and the
(pure model of the) `ensureWithinLimit` call. -/
structure TokenCounterModel where
  estimate : String → Nat
  ensureWithinLimit : String → EnsureResult

/-- `applyOverlap(messages, overlap)`: `[]` when `overlap` is zero, otherwise
`messages.slice(-overlap)` (the trailing `overlap` messages). -/
def applyOverlap (messages : List DiscordMessage) (overlap : Nat) :
    List DiscordMessage :=
  if overlap = 0 then [] else messages.drop (messages.length - overlap)

/-- `buffer.map((m) => m.content).join('\n')`. -/
def bufferText (buffer : List DiscordMessage) : String :=
  String.intercalate "\n" (buffer.map (·.content))

/-- Loop state of `chunk`: emitted windows, next `windowSeq`, rolling buffer,
running token budget, and `lastTimestamp`. -/
structure ChunkState where
  out : List MessageWindow
  seq : Nat
  buffer : List DiscordMessage
  tokenBudget : Nat
  lastTimestamp : Int
  deriving Repr

/-- `flush()`: with a non-empty buffer, concatenate its contents, call
`ensureWithinLimit`, emit a window carrying the next `windowSeq`, the buffer's
message ids in order, and the first and last `createdAt`; then carry the
trailing `overlapMessages` into the new buffer and recompute the budget. -/
def flushState (tc : TokenCounterModel) (cfg : ChunkingConfig)
    (st : ChunkState) : ChunkState :=
  if st.buffer.isEmpty then st
  else
    let ensured := tc.ensureWithinLimit (bufferText st.buffer)
    let w : MessageWindow :=
      { windowSeq := st.seq
        messageIds := st.buffer.map (·.id)
        startAt := (st.buffer.head?.map (·.createdAt)).getD 0
        endAt := (st.buffer.getLast?.map (·.createdAt)).getD 0
        tokenCount := ensured.tokens
        text := ensured.text }
    let newBuffer := applyOverlap st.buffer cfg.overlapMessages
    { out := st.out ++ [w]
      seq := st.seq + 1
      buffer := newBuffer
      tokenBudget := (newBuffer.map (fun m => tc.estimate m.content)).sum
      lastTimestamp := st.lastTimestamp }

/-- `gapMinutes > cfg.softGapMinutes || msg.isTopLevel`; the JS gap is
`(msg.createdAt - lastTimestamp) / 60000` minutes, so for an integral
configuration the comparison is exactly this millisecond inequality. -/
def softBreakB (cfg : ChunkingConfig) (st : ChunkState) (m : DiscordMessage) :
    Bool :=
  decide (m.createdAt - st.lastTimestamp > cfg.softGapMinutes * 60000) || m.isTopLevel

/-- `tokenBudget + tokenAdd > cfg.maxTokensPerWindow`. -/
def wouldOverflowB (tc : TokenCounterModel) (cfg : ChunkingConfig)
    (st : ChunkState) (m : DiscordMessage) : Bool :=
  decide (st.tokenBudget + tc.estimate m.content > cfg.maxTokensPerWindow)

/-- One iteration of the `for (const msg of messages)` loop of `chunk`:
an empty buffer just absorbs the message; otherwise flush first when
`wouldOverflow || softBreak`, then append the message, add its estimate to the
budget and advance `lastTimestamp`. -/
def stepMsg (tc : TokenCounterModel) (cfg : ChunkingConfig)
    (st : ChunkState) (m : DiscordMessage) : ChunkState :=
  let tokenAdd := tc.estimate m.content
  if st.buffer.isEmpty then
    { st with buffer := [m], tokenBudget := tokenAdd, lastTimestamp := m.createdAt }
  else
    let st1 := if wouldOverflowB tc cfg st m || softBreakB cfg st m then
        flushState tc cfg st
      else st
    { st1 with
        buffer := st1.buffer ++ [m]
        tokenBudget := st1.tokenBudget + tokenAdd
        lastTimestamp := m.createdAt }

/-- `chunk(messages)`: empty input yields `[]`; otherwise run the single-pass
loop from `seq = 1`, empty buffer and `lastTimestamp = messages[0].createdAt`,
and flush once more after input exhaustion. -/
def chunk (tc : TokenCounterModel) (cfg : ChunkingConfig)
    (messages : List DiscordMessage) : List MessageWindow :=
  match messages with
  | [] => []
  | m0 :: _ =>
    let init : ChunkState :=
      { out := [], seq := 1, buffer := [], tokenBudget := 0,
        lastTimestamp := m0.createdAt }
    (flushState tc cfg (messages.foldl (stepMsg tc cfg) init)).out

/-! ## Retrieval and answering (`chat-service.ts`) -/

/-- The `message_windows` columns selected by the chat service. -/
structure MessageWindowRecord where
  window_id : String
  text : Option String
  message_ids : List String
  start_at : String
  end_at : String
  channel_id : String
  guild_id : String
  deriving DecidableEq, Repr

/-- `byId.get(windowId)`: lookup of a fetched window row by id (`window_id` is
the table's primary key, so first-match lookup agrees with the JS `Map`). -/
def lookupWindow (rows : List MessageWindowRecord) (wid : String) :
    Option MessageWindowRecord :=
  rows.find? (fun w => w.window_id = wid)

/-- `TOP_CANDIDATES_LIMIT` environment default (`env.TOP_CANDIDATES_LIMIT ?? 50`). -/
def TOP_CANDIDATES_LIMIT_default : Nat := 50

/-- The ordering step of `fetchCandidateWindowsHybrid`: given the RPC result
order `matched` (its `window_id`s) and the fetched window rows, reconstruct
the RPC ordering via the lookup map, drop ids with no row
(`.filter(Boolean)`), and `.slice(0, topCandidatesLimit)`. -/
def orderCandidates (matched : List String) (rows : List MessageWindowRecord)
    (topCandidatesLimit : Nat) : List MessageWindowRecord :=
  ((matched.filterMap (lookupWindow rows)).take topCandidatesLimit)

/-- Citation record of `ChatAnswer`. -/
structure Citation where
  label : String
  jumpLink : String
  deriving DecidableEq, Repr

/-- `ChatAnswer` of `chat/types.ts`. -/
structure ChatAnswer where
  answer : String
  citations : List Citation
  latencyMs : Int
  deriving DecidableEq, Repr

/-- `ChatCommandInput` of `chat/types.ts`. -/
structure ChatCommandInput where
  guildId : String
  channelId : String
  userId : String
  query : String
  deriving DecidableEq, Repr

/-- The canned reply returned when retrieval yields no windows. -/
def noContextMessage : String :=
  "まだ同期されたメッセージがありません。/sync を実行してから再度お試しください。"

/-- The fallback answer when the generated text is missing or empty. -/
def emptyAnswerFallback : String := "回答を生成できませんでした。"

/-- The success-path return value of `answer`: the generated text when
non-empty (`text?.length ? text : fallback`), `citations: []`, and the
elapsed latency. -/
def successAnswer (genText : Option String) (latency : Int) : ChatAnswer :=
  { answer :=
      match genText with
      | some t => if t.length ≠ 0 then t else emptyAnswerFallback
      | none => emptyAnswerFallback
    citations := []
    latencyMs := latency }

/-- The empty-retrieval return value of `answer`. -/
def noContextAnswer (latency : Int) : ChatAnswer :=
  { answer := noContextMessage, citations := [], latencyMs := latency }

/-- `answer(input)` with its collaborators as oracles: `retrieved` is what
`fetchCandidateWindowsHybrid` returned, `selected` what
`selectWindowsForPrompt` returned, and `genOutcome` the Gemini call — `.error`
means the call threw, `.ok t` carries the concatenated, trimmed parts text
(`none` when the response had no parts).  A thrown generation error surfaces
as the `CHAT_FAILED` error code. -/
def answerModel (retrieved _selected : List MessageWindowRecord)
    (genOutcome : Except Unit (Option String)) (latency : Int) :
    Except String ChatAnswer :=
  if retrieved.isEmpty then .ok (noContextAnswer latency)
  else
    match genOutcome with
    | .ok t => .ok (successAnswer t latency)
    | .error _ => .error "CHAT_FAILED"

/-- Citations as the specification describes them (modelled from the spec's
words for comparison with `answerModel`, which is the code's behaviour): the
first 3 selected windows, each mapped to the label `[#n] <localized start_at>`
and the jump link `<chat-service>/channels/<guild>/<channel>/<first_message_id>`;
`localize` stands for the locale rendering of `start_at`. -/
def specCitations (input : ChatCommandInput) (selected : List MessageWindowRecord)
    (chatServiceBase : String) (localize : String → String) : List Citation :=
  (selected.take 3).enum.map (fun p =>
    { label := "[#" ++ toString (p.1 + 1) ++ "] " ++ localize p.2.start_at
      jumpLink := chatServiceBase ++ "/channels/" ++ input.guildId ++ "/" ++
        input.channelId ++ "/" ++ (p.2.message_ids.head?.getD "") })

/-! ## Sync orchestrator: job acquisition (`sync-runner.ts`) and
sync service cursor writes -/

/-- `sync_operations.status`. -/
inductive OpStatus
  | queued | running | completed | failed
  deriving DecidableEq, Repr

/-- A `sync_operations` row (the columns relevant to acquisition; both
timestamps in epoch milliseconds). -/
structure SyncOperationRow where
  id : String
  guild_id : String
  status : OpStatus
  created_at : Int
  updated_at : Int
  deriving DecidableEq, Repr

/-- The select phase of `acquireJob`:
`.eq('status', 'queued').order('created_at', { ascending: true }).limit(1).maybeSingle()` —
the oldest `queued` row. -/
def acquireJobSelect (ops : List SyncOperationRow) : Option SyncOperationRow :=
  ((ops.filter (fun r => r.status = OpStatus.queued)).insertionSort
    (fun a b => a.created_at ≤ b.created_at)).head?

/-- The update phase of `acquireJob`:
`.update({ status: 'running', updated_at: ... }).eq('id', data.id)` — the
update is filtered on `id` alone, with no condition on the row's current
status. -/
def acquireJobUpdate (ops : List SyncOperationRow) (id : String) (now : Int) :
    List SyncOperationRow :=
  ops.map (fun r =>
    if r.id = id then { r with status := OpStatus.running, updated_at := now }
    else r)

/-- Status of the `sync_operations` row with the given id. -/
def opStatusOf (ops : List SyncOperationRow) (id : String) : Option OpStatus :=
  (ops.find? (fun r => r.id = id)).map (·.status)

/-- A `sync_cursors` row (`last_synced_at` in epoch milliseconds). -/
structure SyncCursorRow where
  guild_id : String
  last_message_id : Option String
  last_synced_at : Option Int
  deriving DecidableEq, Repr

/-- Cursor row of a guild. -/
def findCursor (cursors : List SyncCursorRow) (guildId : String) :
    Option SyncCursorRow :=
  cursors.find? (fun c => c.guild_id = guildId)

/-- `upsertCursor(guildId)` of the sync service:
`.upsert({ guild_id: guildId, last_synced_at: new Date().toISOString() })` —
update `last_synced_at` of the existing row (leaving `last_message_id` as it
is), or insert a fresh row whose `last_message_id` takes the column default
`NULL`. -/
def upsertCursorRequest (cursors : List SyncCursorRow) (guildId : String)
    (now : Int) : List SyncCursorRow :=
  if (cursors.any (fun c => c.guild_id = guildId)) then
    cursors.map (fun c =>
      if c.guild_id = guildId then { c with last_synced_at := some now } else c)
  else
    cursors ++ [{ guild_id := guildId, last_message_id := none,
                  last_synced_at := some now }]

/-- The cursor-update phase of `processJob` (runner, successful completion):
`.upsert({ guild_id, last_synced_at: now, last_message_id: messages[last].id })`. -/
def upsertCursorCompletion (cursors : List SyncCursorRow) (guildId : String)
    (now : Int) (lastMessageId : Option String) : List SyncCursorRow :=
  if (cursors.any (fun c => c.guild_id = guildId)) then
    cursors.map (fun c =>
      if c.guild_id = guildId then
        { c with last_synced_at := some now, last_message_id := lastMessageId }
      else c)
  else
    cursors ++ [{ guild_id := guildId, last_message_id := lastMessageId,
                  last_synced_at := some now }]

/-- Store touched by `requestSync`. -/
structure SyncStore where
  ops : List SyncOperationRow
  cursors : List SyncCursorRow
  deriving DecidableEq, Repr

/-- `requestSync(input)` of the sync service: read the guild's cursor (for
`mode`/`since`), insert a `queued` operation row, then call `upsertCursor` —
which writes `last_synced_at = now` for the guild already at request time. -/
def requestSyncModel (s : SyncStore) (guildId _requestedBy : String)
    (newOpId : String) (now : Int) : SyncStore :=
  let newOp : SyncOperationRow :=
    { id := newOpId, guild_id := guildId, status := OpStatus.queued,
      created_at := now, updated_at := now }
  { ops := s.ops ++ [newOp]
    cursors := upsertCursorRequest s.cursors guildId now }

/-! ## Embed worker (embed worker module) -/

/-- `embed_queue.status` values in use: `ready`, `done`, `failed`. -/
inductive QueueStatus
  | ready | done | failed
  deriving DecidableEq, Repr

/-- An `embed_queue` row (`updated_at` omitted: no claim concerns it). -/
structure EmbedQueueRow where
  id : String
  window_id : String
  priority : Int
  status : QueueStatus
  attempts : Nat
  deriving DecidableEq, Repr

/-- An embedding vector (contents opaque to the claims). -/
def EmbedVec := List Int
  deriving DecidableEq, Repr

/-- `message_embeddings` upsert on conflict `window_id` (overwrite). -/
def upsertEmbedding (embeddings : List (String × EmbedVec)) (wid : String)
    (vec : EmbedVec) : List (String × EmbedVec) :=
  if embeddings.any (fun p => p.1 = wid) then
    embeddings.map (fun p => if p.1 = wid then (p.1, vec) else p)
  else
    embeddings ++ [(wid, vec)]

/-- Default `maxAttempts` of the embed worker (`config.maxAttempts ?? 5`). -/
def maxAttempts_default : Nat := 5

/-- `processWindow(queueItem)` with its collaborators as oracles: `textRes` is
`fetchWindowText`'s result (`none` = no text), `ensure` the token counter, and
`embedRes` the `embedWindow` call (`.error` = thrown, e.g. a 429).
`upsertOk = false` models an error from the `message_embeddings` upsert, which
is thrown and caught like an embedding error.  Returns the updated queue row
and embeddings table:
* no text: mark the row `failed`, `attempts + 1` (terminal);
* embedding or upsert error: `attempts + 1`; `failed` iff the new attempts
  reach `maxAttempts`, else left `ready`;
* success: upsert the vector, mark the row `done` (attempts unchanged). -/
def processWindowModel (maxAttempts : Nat) (row : EmbedQueueRow)
    (textRes : Option String) (ensure : String → EnsureResult)
    (embedRes : String → Except String EmbedVec) (upsertOk : Bool)
    (embeddings : List (String × EmbedVec)) :
    EmbedQueueRow × List (String × EmbedVec) :=
  match textRes with
  | none =>
    ({ row with status := QueueStatus.failed, attempts := row.attempts + 1 },
      embeddings)
  | some text =>
    let ensured := ensure text
    match embedRes ensured.text with
    | .error _ =>
      let newAttempts := row.attempts + 1
      ({ row with
          status := if maxAttempts ≤ newAttempts then QueueStatus.failed
            else QueueStatus.ready
          attempts := newAttempts }, embeddings)
    | .ok vec =>
      if upsertOk then
        ({ row with status := QueueStatus.done },
          upsertEmbedding embeddings row.window_id vec)
      else
        let newAttempts := row.attempts + 1
        ({ row with
            status := if maxAttempts ≤ newAttempts then QueueStatus.failed
              else QueueStatus.ready
            attempts := newAttempts }, embeddings)

/-- One worker cycle restricted to a single queue row: `acquireBatch` claims
only rows with `status = 'ready'`, so a non-`ready` row is left untouched;
a claimed row goes through `processWindow`. -/
def workerCycle (maxAttempts : Nat) (textRes : Option String)
    (ensure : String → EnsureResult) (embedRes : String → Except String EmbedVec)
    (upsertOk : Bool) (s : EmbedQueueRow × List (String × EmbedVec)) :
    EmbedQueueRow × List (String × EmbedVec) :=
  if s.1.status = QueueStatus.ready then
    processWindowModel maxAttempts s.1 textRes ensure embedRes upsertOk s.2
  else s

/-! ## Queue trace model (sync runner enqueue + embed worker updates), for the
monotonicity invariant -/

/-- A fresh `embed_queue` row as inserted by `createWindows` of the sync
runner: `priority = 0`, `status = 'ready'`, and the column default
`attempts = 0`; the generated `id` is modelled from the window id. -/
def freshQueueRow (wid : String) : EmbedQueueRow :=
  { id := "q:" ++ wid, window_id := wid, priority := 0,
    status := QueueStatus.ready, attempts := 0 }

/-- The `embed_queue` upsert of `createWindows`:
`onConflict: 'window_id', ignoreDuplicates: true` — a window id already
present leaves its row untouched; new ids are inserted fresh. -/
def enqueueWindows (queue : List EmbedQueueRow) (windowIds : List String) :
    List EmbedQueueRow :=
  windowIds.foldl
    (fun q wid =>
      if q.any (fun r => r.window_id = wid) then q else q ++ [freshQueueRow wid])
    queue

/-- The outcome of one `processWindow` run, as it affects the queue row. -/
inductive ProcessOutcome
  | noText
  | processFail
  | success
  deriving DecidableEq, Repr

/-- The queue-row update `processWindow` performs for an outcome. -/
def applyOutcome (maxAttempts : Nat) (o : ProcessOutcome) (r : EmbedQueueRow) :
    EmbedQueueRow :=
  match o with
  | .noText => { r with status := QueueStatus.failed, attempts := r.attempts + 1 }
  | .processFail =>
    { r with
        status := if maxAttempts ≤ r.attempts + 1 then QueueStatus.failed
          else QueueStatus.ready
        attempts := r.attempts + 1 }
  | .success => { r with status := QueueStatus.done }

/-- One atomic event on `embed_queue`: the sync runner's duplicate-ignoring
enqueue, or the embed worker claiming a row — it only claims rows that are
`ready` (via `acquireBatch`'s `status = 'ready'` filter) and then applies the
`processWindow` update to the rows with that `id`. -/
inductive QueueEvent
  | enqueue (windowIds : List String)
  | process (id : String) (o : ProcessOutcome)

/-- Apply one event to the queue table. -/
def queueStep (maxAttempts : Nat) (queue : List EmbedQueueRow) :
    QueueEvent → List EmbedQueueRow
  | .enqueue wids => enqueueWindows queue wids
  | .process id o =>
    queue.map (fun r =>
      if r.id = id ∧ r.status = QueueStatus.ready then applyOutcome maxAttempts o r
      else r)

/-- Run a sequence of events. -/
def queueRun (maxAttempts : Nat) (queue : List EmbedQueueRow)
    (events : List QueueEvent) : List EmbedQueueRow :=
  events.foldl (queueStep maxAttempts) queue

/-- Status of the queue row with the given id. -/
def qStatusOf (queue : List EmbedQueueRow) (id : String) : Option QueueStatus :=
  (queue.find? (fun r => r.id = id)).map (·.status)

/-- Attempts of the queue row with the given id (0 when absent). -/
def qAttemptsOf (queue : List EmbedQueueRow) (id : String) : Nat :=
  ((queue.find? (fun r => r.id = id)).map (·.attempts)).getD 0

/-! ## Concrete instances used by the scenario parts of the claims -/

/-- A concrete token counter for scenario runs: character count as the local
estimator (any estimator works; the scenarios use single-character contents),
`ensureWithinLimit` instantiated with the module defaults
`maxTokens = 2048`, `safetyMargin = 128`. -/
def tcScenario : TokenCounterModel :=
  { estimate := fun s => s.length
    ensureWithinLimit := fun s =>
      ensureWithinLimitModel (fun t => t.length) (fun t => t.length) 2048 128 s }

/-- The chunking defaults: `maxTokensPerWindow = 1200`, `softGapMinutes = 5`,
`overlapMessages = 0`. -/
def cfgDefault : ChunkingConfig :=
  { maxTokensPerWindow := 1200, softGapMinutes := 5, overlapMessages := 0 }

/-- Three messages at t = 0, t = 1 min, t = 10 min, none top-level
(the soft-gap scenario). -/
def scenarioMessages : List DiscordMessage :=
  [ { id := "1", content := "a", createdAt := 0, isTopLevel := false },
    { id := "2", content := "b", createdAt := 60000, isTopLevel := false },
    { id := "3", content := "c", createdAt := 600000, isTopLevel := false } ]

/-- Sixteen window ids, standing for a vector-RPC result with 16 matches. -/
def cexMatchedIds : List String :=
  (List.range 16).map (fun k => "w" ++ toString k)

/-- A window row for each of the sixteen ids (no referential drift). -/
def cexWindowRows : List MessageWindowRecord :=
  cexMatchedIds.map (fun s =>
    { window_id := s, text := some "t", message_ids := [], start_at := "",
      end_at := "", channel_id := "c", guild_id := "g" })

/-- A concrete chat command input. -/
def cexChatInput : ChatCommandInput :=
  { guildId := "g1", channelId := "c1", userId := "u1", query := "q" }

/-- A concrete selected window with a first message id. -/
def cexSelectedWindow : MessageWindowRecord :=
  { window_id := "w1", text := some "hello", message_ids := ["m1"],
    start_at := "2024-01-01T00:00:00Z", end_at := "2024-01-01T01:00:00Z",
    channel_id := "c1", guild_id := "g1" }

/-- An embedding client that always fails with HTTP 429. -/
def embedFail429 : String → Except String EmbedVec :=
  fun _ => Except.error "429 Too Many Requests"

/-- A fresh `ready` queue row with `attempts = 0`. -/
def queueRow0 : EmbedQueueRow :=
  { id := "q:w1", window_id := "w1", priority := 0,
    status := QueueStatus.ready, attempts := 0 }

/-! ## Predicates used to state the chunking invariants -/

/-- Comparison of messages by `createdAt`. -/
def byCreatedAt (a b : DiscordMessage) : Prop :=
  a.createdAt ≤ b.createdAt

instance : DecidableRel byCreatedAt :=
  fun a b => Int.decLe a.createdAt b.createdAt

/-- A concrete `sync_operations` row in state `queued` (select-time snapshot). -/
def opQueued : SyncOperationRow :=
  { id := "op1", guild_id := "g1", status := OpStatus.queued,
    created_at := 0, updated_at := 0 }

/-- The same row after a competing runner completed it (update-time state). -/
def opCompleted : SyncOperationRow :=
  { id := "op1", guild_id := "g1", status := OpStatus.completed,
    created_at := 0, updated_at := 5 }

/-- `w` is the window emitted from the (non-empty) buffer `bs`: its message
ids are those of `bs` in order, `bs` is ascending by `createdAt`, and
`startAt`/`endAt` are the first and last `createdAt` of `bs`. -/
def WindowFromMessages (w : MessageWindow) (bs : List DiscordMessage) : Prop :=
  bs ≠ [] ∧ w.messageIds = bs.map (·.id) ∧ bs.Pairwise byCreatedAt ∧
  bs.head?.map (·.createdAt) = some w.startAt ∧
  bs.getLast?.map (·.createdAt) = some w.endAt

/-- Loop invariant of `chunk`, relative to the already-processed input prefix
`done` and the remaining input `rest`: the buffer is an ascending sublist of
`done` bounded by every remaining message, every emitted window arises from
an ascending non-empty sublist of `done`, the emitted `windowSeq`s are
`1, 2, …`, and `seq` is the next one. -/
def ChunkInv (done : List DiscordMessage) (st : ChunkState)
    (rest : List DiscordMessage) : Prop :=
  st.buffer.Pairwise byCreatedAt ∧
  (∀ b ∈ st.buffer, ∀ r ∈ rest, b.createdAt ≤ r.createdAt) ∧
  st.buffer.Sublist done ∧
  (∀ w ∈ st.out, ∃ bs, WindowFromMessages w bs ∧ bs.Sublist done) ∧
  st.out.map (·.windowSeq) = List.range' 1 st.out.length ∧
  st.seq = st.out.length + 1

/-! ## Theorems -/

/-- C1.  The claim says `acquireJob`'s `queued → running` transition is
conditional on the row still being `queued` at update time, so that a losing
updater skips the job.  The code refutes this: the update filters on `id`
alone.  At the concrete failing input — the row is selected while `queued`,
but a competing runner has already driven it to `completed` by update time —
the update still overwrites the status to `running` instead of skipping. -/
theorem C1_acquireJob_update_unconditional :
    acquireJobSelect [opQueued] = some opQueued ∧
    opStatusOf [opCompleted] "op1" = some OpStatus.completed ∧
    opStatusOf (acquireJobUpdate [opCompleted] "op1" 9) "op1" =
      some OpStatus.running := by
  decide

/-- C3 counterexample.  At a concrete successful generation with one selected
window, the code returns `citations = []`, while the claim's citation list
(first 3 windows, labelled, with jump links) is non-empty. -/
theorem C3_citations_counterexample :
    answerModel [cexSelectedWindow] [cexSelectedWindow]
        (Except.ok (some "ans")) 5 =
      Except.ok { answer := "ans", citations := [], latencyMs := 5 } ∧
    specCitations cexChatInput [cexSelectedWindow] "https://discord.com"
        (fun s => s) ≠ [] := by
  constructor
  · rfl
  · decide

/-- C3 amended.  Every answer the chat service returns — the no-context reply
and the successful-generation reply alike — carries an empty citation list. -/
theorem C3_citations_always_empty (retrieved selected : List MessageWindowRecord)
    (gen : Except Unit (Option String)) (lat : Int) (r : ChatAnswer)
    (h : answerModel retrieved selected gen lat = Except.ok r) :
    r.citations = [] := by
  unfold answerModel at h
  split at h
  · cases h
    rfl
  · cases gen with
    | ok t =>
      simp only [Except.ok.injEq] at h
      rw [← h]
      rfl
    | error e => simp at h

/-- C3 amended, witness at a concrete input. -/
theorem C3_citations_always_empty_witness :
    (successAnswer (some "ans") 5).citations = [] :=
  C3_citations_always_empty [cexSelectedWindow] [cexSelectedWindow]
    (Except.ok (some "ans")) 5 (successAnswer (some "ans") 5) rfl

/-- C7.  `processWindow`'s failure policy: a thrown error during embedding
generation, or a failed vector upsert, increments `attempts` by exactly 1 and
marks the row `failed` precisely when the incremented attempts reach
`maxAttempts`, otherwise leaves it `ready`; the embeddings table is untouched.
In particular (scenario), with an embedding client that always fails with 429
and `maxAttempts = 5`, five worker cycles drive a fresh row to `failed` with
`attempts = 5` and no `message_embeddings` row written. -/
theorem C7_processWindow_failure_policy :
    (∀ (maxAttempts : Nat) (row : EmbedQueueRow) (text : String)
        (ensure : String → EnsureResult) (errMsg : String) (upsertOk : Bool)
        (embeddings : List (String × EmbedVec)),
      processWindowModel maxAttempts row (some text) ensure
          (fun _ => Except.error errMsg) upsertOk embeddings =
        ({ row with
            status := if maxAttempts ≤ row.attempts + 1 then QueueStatus.failed
              else QueueStatus.ready
            attempts := row.attempts + 1 }, embeddings)) ∧
    (∀ (maxAttempts : Nat) (row : EmbedQueueRow) (text : String)
        (ensure : String → EnsureResult) (vec : EmbedVec)
        (embeddings : List (String × EmbedVec)),
      processWindowModel maxAttempts row (some text) ensure
          (fun _ => Except.ok vec) false embeddings =
        ({ row with
            status := if maxAttempts ≤ row.attempts + 1 then QueueStatus.failed
              else QueueStatus.ready
            attempts := row.attempts + 1 }, embeddings)) ∧
    (workerCycle maxAttempts_default (some "text") tcScenario.ensureWithinLimit
        embedFail429 true)^[5] (queueRow0, []) =
      ({ id := "q:w1", window_id := "w1", priority := 0,
         status := QueueStatus.failed, attempts := 5 }, []) := by
  refine ⟨fun _ _ _ _ _ _ _ => rfl, fun _ _ _ _ _ _ => rfl, by decide⟩

/-- C9 amended.  `ensureWithinLimit` branch behaviour: if
`estimate(text) ≤ maxTokens - safetyMargin` the text is returned unchanged
with `tokens = estimate(text)` and `truncated = false`; otherwise the precise
count is consulted — when it is within `maxTokens` (not
`maxTokens - safetyMargin`) the text is still returned unchanged with
`truncated = false`; only when the precise count exceeds `maxTokens` is the
text truncated to the limit `maxTokens - safetyMargin` and returned with
`truncated = true`. -/
theorem C9_ensureWithinLimit_cases (estimate count : String → Nat)
    (maxTokens safetyMargin : Int) (text : String) :
    ((estimate text : Int) ≤ maxTokens - safetyMargin →
      ensureWithinLimitModel estimate count maxTokens safetyMargin text =
        ⟨text, estimate text, false⟩) ∧
    (maxTokens - safetyMargin < (estimate text : Int) →
      (count text : Int) ≤ maxTokens →
      ensureWithinLimitModel estimate count maxTokens safetyMargin text =
        ⟨text, count text, false⟩) ∧
    (maxTokens - safetyMargin < (estimate text : Int) →
      maxTokens < (count text : Int) →
      ensureWithinLimitModel estimate count maxTokens safetyMargin text =
        ⟨truncateModel count text (maxTokens - safetyMargin),
         count (truncateModel count text (maxTokens - safetyMargin)), true⟩) := by
  refine ⟨fun h1 => ?_, fun h1 h2 => ?_, fun h1 h2 => ?_⟩ <;>
    unfold ensureWithinLimitModel
  · rw [if_pos h1]
  · rw [if_neg (not_le.mpr h1), if_pos h2]
  · rw [if_neg (not_le.mpr h1), if_neg (not_le.mpr h2)]

/-- C9 counterexample.  The claim's only named limit is
`maxTokens - safetyMargin`, so "if the precise count is still over" reads as
over that limit.  At estimate 2000, precise count 2000, `maxTokens = 2048`,
`safetyMargin = 128`: the precise count (2000) is over the claim's limit
(1920), so the claim demands truncation with `truncated = true`, yet the code
returns the text unchanged with `truncated = false` — it truncates only above
`maxTokens`. -/
theorem C9_precise_band_counterexample :
    ensureWithinLimitModel (fun _ => 2000) (fun _ => 2000) 2048 128 "hi" =
      ⟨"hi", 2000, false⟩ ∧
    (2048 - 128 : Int) < 2000 ∧ (2000 : Int) ≤ 2048 := by
  decide

/-- C9 amended, witness: all three branches exercised at concrete inputs. -/
theorem C9_ensureWithinLimit_cases_witness :
    ensureWithinLimitModel (fun _ => 10) (fun _ => 10) 2048 128 "hi" =
      ⟨"hi", 10, false⟩ ∧
    ensureWithinLimitModel (fun _ => 2000) (fun _ => 1000) 2048 128 "hi" =
      ⟨"hi", 1000, false⟩ ∧
    ensureWithinLimitModel (fun _ => 2000) (fun _ => 3000) 2048 128 "hi" =
      ⟨truncateModel (fun _ => 3000) "hi" (2048 - 128), 3000, true⟩ :=
  ⟨(C9_ensureWithinLimit_cases (fun _ => 10) (fun _ => 10) 2048 128 "hi").1
      (by decide),
   (C9_ensureWithinLimit_cases (fun _ => 2000) (fun _ => 1000) 2048 128 "hi").2.1
      (by decide) (by decide),
   (C9_ensureWithinLimit_cases (fun _ => 2000) (fun _ => 3000) 2048 128 "hi").2.2
      (by decide) (by decide)⟩

/-- The window ids of the looked-up candidates are exactly the matched ids
that have a row, in matched order. -/
theorem filterMap_lookup_window_id (matched : List String)
    (rows : List MessageWindowRecord) :
    (matched.filterMap (lookupWindow rows)).map (·.window_id) =
      matched.filter (fun wid => (lookupWindow rows wid).isSome) := by
  induction matched with
  | nil => rfl
  | cons a t ih =>
    cases h : lookupWindow rows a with
    | none => simp [List.filterMap_cons, h, List.filter_cons, ih]
    | some w =>
      have hw : w.window_id = a := by
        have h2 := List.find?_some h
        simp only [lookupWindow] at h2 ⊢
        simp only [decide_eq_true_eq] at h2
        exact h2
      simp [List.filterMap_cons, h, List.filter_cons, ih, hw]

/-- C2 counterexample.  With 16 RPC matches all of which have rows and the
default `TOP_CANDIDATES_LIMIT` of 50, retrieval returns 16 candidates — more
than the 15 the claim allows. -/
theorem C2_top15_counterexample :
    ¬ (orderCandidates cexMatchedIds cexWindowRows
        TOP_CANDIDATES_LIMIT_default).length ≤ 15 := by
  decide

/-- C2 amended.  Retrieval returns candidate windows in exactly the RPC's
order, drops every `window_id` whose row is missing, and retains at most the
top `topCandidatesLimit` candidates (`TOP_CANDIDATES_LIMIT`, default 50). -/
theorem C2_order_preserved_bounded (matched : List String)
    (rows : List MessageWindowRecord) (limit : Nat) :
    (orderCandidates matched rows limit).map (·.window_id) =
      (matched.filter (fun wid => (lookupWindow rows wid).isSome)).take limit ∧
    (orderCandidates matched rows limit).length ≤ limit := by
  constructor
  · rw [orderCandidates, List.map_take, filterMap_lookup_window_id]
  · simp [orderCandidates, List.length_take]

/-- `find?` by guild commutes with a row map that preserves `guild_id`. -/
theorem find?_guild_map (cursors : List SyncCursorRow)
    (f : SyncCursorRow → SyncCursorRow)
    (hf : ∀ c, (f c).guild_id = c.guild_id) (g' : String) :
    List.find? (fun c => c.guild_id = g') (cursors.map f) =
      (List.find? (fun c => c.guild_id = g') cursors).map f := by
  have hp : ((fun c : SyncCursorRow => decide (c.guild_id = g')) ∘ f) =
      (fun c : SyncCursorRow => decide (c.guild_id = g')) := by
    funext c
    simp [Function.comp, hf]
  rw [List.find?_map, hp]

/-- The request-time cursor upsert writes `last_synced_at = now` for the
guild (creating the row with a NULL `last_message_id` when absent, keeping
the stored `last_message_id` otherwise) and leaves other guilds' rows
untouched. -/
theorem findCursor_upsertRequest (cursors : List SyncCursorRow) (g : String)
    (now : Int) :
    findCursor (upsertCursorRequest cursors g now) g =
      some { guild_id := g,
             last_message_id := (findCursor cursors g).bind (·.last_message_id),
             last_synced_at := some now } ∧
    ∀ g', g' ≠ g →
      findCursor (upsertCursorRequest cursors g now) g' = findCursor cursors g' := by
  have hf : ∀ c : SyncCursorRow,
      ((if c.guild_id = g then { c with last_synced_at := some now } else c) :
        SyncCursorRow).guild_id = c.guild_id := by
    intro c
    split <;> rfl
  constructor
  · unfold upsertCursorRequest findCursor
    split
    case isTrue hany =>
      rw [find?_guild_map _ _ hf]
      cases hcq : List.find? (fun c : SyncCursorRow => c.guild_id = g) cursors with
      | none =>
        exfalso
        obtain ⟨c, hmem, hcg⟩ := List.any_eq_true.mp hany
        exact (List.find?_eq_none.mp hcq c hmem) hcg
      | some c =>
        have hg : c.guild_id = g := by
          have h2 := List.find?_some hcq
          simp only [decide_eq_true_eq] at h2
          exact h2
        simp [hg]
    case isFalse hany =>
      have hnone : List.find? (fun c : SyncCursorRow => c.guild_id = g) cursors = none := by
        rw [List.find?_eq_none]
        intro c hc
        simp only [decide_eq_true_eq]
        intro hg
        exact hany (List.any_eq_true.mpr ⟨c, hc, by simp [hg]⟩)
      rw [List.find?_append, hnone]
      simp
  · intro g' hg'
    unfold upsertCursorRequest findCursor
    split
    case isTrue hany =>
      rw [find?_guild_map _ _ hf]
      cases hc : List.find? (fun c : SyncCursorRow => c.guild_id = g') cursors with
      | none => rfl
      | some c =>
        have hg : c.guild_id = g' := by
          have h2 := List.find?_some hc
          simp only [decide_eq_true_eq] at h2
          exact h2
        have hne : ¬ c.guild_id = g := by
          rw [hg]
          exact hg'
        simp [hne]
    case isFalse hany =>
      rw [List.find?_append]
      cases hc : List.find? (fun c : SyncCursorRow => c.guild_id = g') cursors with
      | none =>
        simp [Ne.symm hg']
      | some c => rfl

/-- The completion-time cursor upsert of `processJob` writes both
`last_synced_at` and `last_message_id` for the guild. -/
theorem findCursor_upsertCompletion (cursors : List SyncCursorRow) (g : String)
    (now : Int) (lastId : Option String) :
    findCursor (upsertCursorCompletion cursors g now lastId) g =
      some { guild_id := g, last_message_id := lastId,
             last_synced_at := some now } := by
  have hf : ∀ c : SyncCursorRow,
      ((if c.guild_id = g then
          { c with last_synced_at := some now, last_message_id := lastId }
        else c) : SyncCursorRow).guild_id = c.guild_id := by
    intro c
    split <;> rfl
  unfold upsertCursorCompletion findCursor
  split
  case isTrue hany =>
    rw [find?_guild_map _ _ hf]
    cases hcq : List.find? (fun c : SyncCursorRow => c.guild_id = g) cursors with
    | none =>
      exfalso
      obtain ⟨c, hmem, hcg⟩ := List.any_eq_true.mp hany
      exact (List.find?_eq_none.mp hcq c hmem) hcg
    | some c =>
      have hg : c.guild_id = g := by
        have h2 := List.find?_some hcq
        simp only [decide_eq_true_eq] at h2
        exact h2
      simp [hg]
  case isFalse hany =>
    have hnone : List.find? (fun c : SyncCursorRow => c.guild_id = g) cursors = none := by
      rw [List.find?_eq_none]
      intro c hc
      simp only [decide_eq_true_eq]
      intro hg
      exact hany (List.any_eq_true.mpr ⟨c, hc, by simp [hg]⟩)
    rw [List.find?_append, hnone]
    simp

/-- C4 counterexample.  Starting from an empty store, merely requesting a sync
creates/updates the guild's `sync_cursors` row — `last_synced_at` is written
at request time, before any job runs — refuting "merely requesting a sync
leaves the guild's cursor unchanged". -/
theorem C4_requestSync_writes_cursor_counterexample :
    (requestSyncModel ⟨[], []⟩ "g1" "u1" "op1" 1000).cursors ≠
      ([] : List SyncCursorRow) ∧
    findCursor (requestSyncModel ⟨[], []⟩ "g1" "u1" "op1" 1000).cursors "g1" =
      some { guild_id := "g1", last_message_id := none,
             last_synced_at := some 1000 } := by
  decide

/-- C4 amended.  The guild's `sync_cursors` row is written in two places:
`requestSync` upserts `last_synced_at = now` already at request time (keeping
any stored `last_message_id`, and touching no other guild's row), and the
orchestrator's final phase of a successfully completed job upserts both
`last_message_id` and `last_synced_at`. -/
theorem C4_cursor_write_sites (s : SyncStore)
    (guildId requestedBy opId : String) (now : Int) (lastId : Option String) :
    (findCursor (requestSyncModel s guildId requestedBy opId now).cursors guildId =
      some { guild_id := guildId,
             last_message_id := (findCursor s.cursors guildId).bind (·.last_message_id),
             last_synced_at := some now }) ∧
    (∀ g, g ≠ guildId →
      findCursor (requestSyncModel s guildId requestedBy opId now).cursors g =
        findCursor s.cursors g) ∧
    findCursor (upsertCursorCompletion s.cursors guildId now lastId) guildId =
      some { guild_id := guildId, last_message_id := lastId,
             last_synced_at := some now } := by
  refine ⟨?_, ?_, findCursor_upsertCompletion s.cursors guildId now lastId⟩
  · exact (findCursor_upsertRequest s.cursors guildId now).1
  · exact (findCursor_upsertRequest s.cursors guildId now).2

/-- C4 amended, witness: a request for guild `g1` leaves guild `g2`'s cursor
untouched, and writes `g1`'s. -/
theorem C4_cursor_write_sites_witness :
    findCursor (requestSyncModel
        ⟨[], [{ guild_id := "g2", last_message_id := some "m9",
                last_synced_at := some 1 }]⟩ "g1" "u1" "op1" 5).cursors "g2" =
      some { guild_id := "g2", last_message_id := some "m9",
             last_synced_at := some 1 } ∧
    findCursor (requestSyncModel
        ⟨[], [{ guild_id := "g2", last_message_id := some "m9",
                last_synced_at := some 1 }]⟩ "g1" "u1" "op1" 5).cursors "g1" =
      some { guild_id := "g1", last_message_id := none,
             last_synced_at := some 5 } := by
  have h := C4_cursor_write_sites
    ⟨[], [{ guild_id := "g2", last_message_id := some "m9",
            last_synced_at := some 1 }]⟩ "g1" "u1" "op1" 5 none
  refine ⟨(h.2.1 "g2" (by decide)).trans (by decide), ?_⟩
  have h1 := h.1
  simpa using h1

/-- `flush` emits exactly one window when the buffer is non-empty, none
otherwise. -/
theorem flushState_out_length (tc : TokenCounterModel) (cfg : ChunkingConfig)
    (st : ChunkState) :
    (flushState tc cfg st).out.length =
      st.out.length + (if st.buffer.isEmpty then 0 else 1) := by
  unfold flushState
  cases h : st.buffer.isEmpty <;> simp [h]

/-- C5.  The chunker flushes (emits a window boundary) while processing
message `m` iff the buffer is non-empty and (the running budget plus
`estimate(m.content)` exceeds `maxTokensPerWindow`, or the gap from the
previous message exceeds `softGapMinutes`, or `m.isTopLevel`); in particular
three messages at t = 0, 1 min, 10 min with `isTopLevel = false` and
`softGapMinutes = 5` yield exactly two windows, `{1, 2}` and `{3}`. -/
theorem C5_flush_boundary :
    (∀ (tc : TokenCounterModel) (cfg : ChunkingConfig) (st : ChunkState)
        (m : DiscordMessage),
      (stepMsg tc cfg st m).out.length =
        st.out.length +
          (if st.buffer.isEmpty = false ∧
              (wouldOverflowB tc cfg st m || softBreakB cfg st m) = true
            then 1 else 0)) ∧
    (chunk tcScenario cfgDefault scenarioMessages).map (·.messageIds) =
      [["1", "2"], ["3"]] ∧
    (chunk tcScenario cfgDefault scenarioMessages).length = 2 := by
  refine ⟨?_, by decide, by decide⟩
  intro tc cfg st m
  unfold stepMsg
  cases hb : st.buffer.isEmpty with
  | true => simp [hb]
  | false =>
    cases hc : (wouldOverflowB tc cfg st m || softBreakB cfg st m) with
    | false => simp [hb, hc]
    | true =>
      simp [hb, hc, flushState_out_length]

/-- A chain of `k` retryable failures followed by a success: the loop makes
`k + 1` calls, sleeping `2^attempt * 250` ms between consecutive calls, and
returns the success value. -/
theorem countPreciselyGo_chain (estimateVal : Nat)
    (outcomes : Nat → AttemptOutcome) :
    ∀ (k a : Nat) (t : Option Nat), a + k < 5 →
      (∀ i, a ≤ i → i < a + k →
        ∃ m, outcomes i = AttemptOutcome.failure m ∧ isRetryableMessage m = true) →
      outcomes (a + k) = AttemptOutcome.success t →
      countPreciselyGo estimateVal outcomes a =
        (t.getD estimateVal, k + 1,
          (List.range k).map (fun j => 2 ^ (a + j) * 250)) := by
  intro k
  induction k with
  | zero =>
    intro a t ha _ hsucc
    unfold countPreciselyGo
    rw [dif_pos (by omega : a < 5)]
    rw [show a + 0 = a from rfl] at hsucc
    rw [hsucc]
    simp
  | succ k ih =>
    intro a t ha hfail hsucc
    obtain ⟨m, hm, hr⟩ := hfail a le_rfl (by omega)
    have ih' := ih (a + 1) t (by omega)
      (fun i h1 h2 => hfail i (by omega) (by omega))
      (by rw [show a + 1 + k = a + (k + 1) from by omega]; exact hsucc)
    have hcond : (isRetryableMessage m && decide (a < 4)) = true := by
      rw [hr]
      simp only [Bool.true_and, decide_eq_true_eq]
      omega
    have hstep : countPreciselyGo estimateVal outcomes a =
        (if (isRetryableMessage m && decide (a < 4)) = true then
          ((countPreciselyGo estimateVal outcomes (a + 1)).1,
            (countPreciselyGo estimateVal outcomes (a + 1)).2.1 + 1,
            2 ^ a * 250 :: (countPreciselyGo estimateVal outcomes (a + 1)).2.2)
        else (estimateVal, 1, [])) := by
      conv_lhs => unfold countPreciselyGo
      rw [dif_pos (by omega : a < 5), hm]
    rw [hstep, if_pos hcond, ih']
    refine congrArg (Prod.mk _) (congrArg (Prod.mk _) ?_)
    have hfun : ((fun j => 2 ^ (a + j) * 250) ∘ Nat.succ) =
        (fun j => 2 ^ (a + 1 + j) * 250) := by
      funext j
      simp only [Function.comp_apply]
      rw [show a + Nat.succ j = a + 1 + j from by omega]
    rw [List.range_succ_eq_map, List.map_cons, List.map_map, hfun]
    simp

/-- Totality and call bound of the retry loop from any starting attempt:
at most `5 - a` calls are made, and the result is the estimate fallback or
the `totalTokens ?? estimate` of some successful attempt. -/
theorem countPreciselyGo_spec (estimateVal : Nat)
    (outcomes : Nat → AttemptOutcome) :
    ∀ (n a : Nat), 5 - a ≤ n →
      (countPreciselyGo estimateVal outcomes a).2.1 ≤ 5 - a ∧
      ((countPreciselyGo estimateVal outcomes a).1 = estimateVal ∨
        ∃ i, a ≤ i ∧ i < 5 ∧ ∃ t, outcomes i = AttemptOutcome.success t ∧
          (countPreciselyGo estimateVal outcomes a).1 = t.getD estimateVal) := by
  intro n
  induction n with
  | zero =>
    intro a ha
    have h5 : ¬ a < 5 := by omega
    unfold countPreciselyGo
    rw [dif_neg h5]
    exact ⟨by simp, Or.inl rfl⟩
  | succ n ih =>
    intro a ha
    by_cases h5 : a < 5
    · cases ho : outcomes a with
      | success t =>
        have hstep : countPreciselyGo estimateVal outcomes a =
            (t.getD estimateVal, 1, []) := by
          unfold countPreciselyGo
          rw [dif_pos h5, ho]
        rw [hstep]
        exact ⟨by simp; omega, Or.inr ⟨a, le_rfl, h5, t, ho, rfl⟩⟩
      | failure m =>
        have hstep : countPreciselyGo estimateVal outcomes a =
            (if (isRetryableMessage m && decide (a < 4)) = true then
              ((countPreciselyGo estimateVal outcomes (a + 1)).1,
                (countPreciselyGo estimateVal outcomes (a + 1)).2.1 + 1,
                2 ^ a * 250 ::
                  (countPreciselyGo estimateVal outcomes (a + 1)).2.2)
            else (estimateVal, 1, [])) := by
          conv_lhs => unfold countPreciselyGo
          rw [dif_pos h5, ho]
        by_cases hcond : (isRetryableMessage m && decide (a < 4)) = true
        · rw [hstep, if_pos hcond]
          have hrec := ih (a + 1) (by omega)
          constructor
          · have h1 := hrec.1
            simp only [Prod.fst, Prod.snd]
            omega
          · rcases hrec.2 with h | ⟨i, hi1, hi2, t, hst, hres⟩
            · exact Or.inl h
            · exact Or.inr ⟨i, by omega, hi2, t, hst, hres⟩
        · rw [hstep, if_neg hcond]
          exact ⟨by simp; omega, Or.inl rfl⟩
    · have hstep : countPreciselyGo estimateVal outcomes a =
          (estimateVal, 0, []) := by
        unfold countPreciselyGo
        rw [dif_neg h5]
      rw [hstep]
      exact ⟨by simp, Or.inl rfl⟩

/-- A first-call failure whose message matches no retryable signature is not
retried: `estimate` is returned after a single call, with no backoff sleep. -/
theorem countPreciselyRun_nonretryable (estimateVal : Nat)
    (outcomes : Nat → AttemptOutcome) (m : String)
    (h0 : outcomes 0 = AttemptOutcome.failure m)
    (hr : isRetryableMessage m = false) :
    countPreciselyRun estimateVal outcomes = (estimateVal, 1, []) := by
  have hstep : countPreciselyRun estimateVal outcomes =
      (if (isRetryableMessage m && decide (0 < 4)) = true then
        ((countPreciselyGo estimateVal outcomes 1).1,
          (countPreciselyGo estimateVal outcomes 1).2.1 + 1,
          2 ^ 0 * 250 :: (countPreciselyGo estimateVal outcomes 1).2.2)
      else (estimateVal, 1, [])) := by
    conv_lhs => unfold countPreciselyRun countPreciselyGo
    rw [dif_pos (by omega : (0 : Nat) < 5), h0]
  rw [hstep, if_neg (by simp [hr])]

/-- C10 amended.  `countPrecisely` makes at most 5 calls and never surfaces an
error — the result is `estimate(text)` or a successful attempt's count; a run
of retryable failures (message containing one of '429', '500', '502', '503',
'504', 'rate limit', 'timeout') is retried with exponential backoff starting
at 250 ms and doubling per attempt until a success; any failure outside that
list — connection resets included — falls back to `estimate(text)`
immediately, as does retry exhaustion. -/
theorem C10_countPrecisely_retry_policy (estimateVal : Nat)
    (outcomes : Nat → AttemptOutcome) :
    ((countPreciselyRun estimateVal outcomes).2.1 ≤ 5 ∧
      ((countPreciselyRun estimateVal outcomes).1 = estimateVal ∨
        ∃ i, i < 5 ∧ ∃ t, outcomes i = AttemptOutcome.success t ∧
          (countPreciselyRun estimateVal outcomes).1 = t.getD estimateVal)) ∧
    (∀ (k : Nat) (t : Option Nat), k < 5 →
      (∀ i, i < k →
        ∃ m, outcomes i = AttemptOutcome.failure m ∧ isRetryableMessage m = true) →
      outcomes k = AttemptOutcome.success t →
      countPreciselyRun estimateVal outcomes =
        (t.getD estimateVal, k + 1, (List.range k).map (fun j => 2 ^ j * 250))) ∧
    (∀ m, outcomes 0 = AttemptOutcome.failure m → isRetryableMessage m = false →
      countPreciselyRun estimateVal outcomes = (estimateVal, 1, [])) ∧
    ((∀ i, i < 5 →
        ∃ m, outcomes i = AttemptOutcome.failure m ∧ isRetryableMessage m = true) →
      (countPreciselyRun estimateVal outcomes).1 = estimateVal) := by
  have hspec := countPreciselyGo_spec estimateVal outcomes 5 0 (by omega)
  refine ⟨⟨by simpa using hspec.1, ?_⟩, ?_, ?_, ?_⟩
  · rcases hspec.2 with h | ⟨i, _, hi2, t, hst, hres⟩
    · exact Or.inl h
    · exact Or.inr ⟨i, hi2, t, hst, hres⟩
  · intro k t hk hfail hsucc
    have hch := countPreciselyGo_chain estimateVal outcomes k 0 t (by omega)
      (fun i _ h2 => hfail i (by omega)) (by simpa using hsucc)
    simpa using hch
  · intro m h0 hr
    exact countPreciselyRun_nonretryable estimateVal outcomes m h0 hr
  · intro hall
    rcases hspec.2 with h | ⟨i, _, hi2, t, hst, _⟩
    · exact h
    · obtain ⟨m, hm, _⟩ := hall i hi2
      rw [hst] at hm
      exact absurd hm (by simp)

/-- C10 amended, witness: one 429 failure then a success of 10 gives result
10 after 2 calls with a single 250 ms backoff. -/
theorem C10_countPrecisely_retry_policy_witness :
    countPreciselyRun 7
        (fun i => if i = 0 then AttemptOutcome.failure "429"
          else AttemptOutcome.success (some 10)) = (10, 2, [250]) := by
  have hfail : ∀ i, i < 1 →
      ∃ m, (fun i => if i = 0 then AttemptOutcome.failure "429"
        else AttemptOutcome.success (some 10)) i = AttemptOutcome.failure m ∧
        isRetryableMessage m = true := by
    intro i hi
    have h0 : i = 0 := by omega
    subst h0
    exact ⟨"429", rfl, by decide⟩
  have h := (C10_countPrecisely_retry_policy 7
      (fun i => if i = 0 then AttemptOutcome.failure "429"
        else AttemptOutcome.success (some 10))).2.1 1 (some 10)
      (by omega) hfail rfl
  simpa using h

/-- C10 counterexample.  A connection-reset error (`ECONNRESET`) matches none
of the code's retryable signatures: the very first such failure returns
`estimate(text)` after a single call — no retry happens — refuting the
claim's "retries on connection resets". -/
theorem C10_connection_reset_not_retried :
    countPreciselyRun 7
        (fun i => if i = 0 then AttemptOutcome.failure "read ECONNRESET"
          else AttemptOutcome.success (some 42)) = (7, 1, []) ∧
    ¬ 2 ≤ (countPreciselyRun 7
        (fun i => if i = 0 then AttemptOutcome.failure "read ECONNRESET"
          else AttemptOutcome.success (some 42))).2.1 := by
  have h : isRetryableMessage "read ECONNRESET" = false := by decide
  have he : countPreciselyRun 7
      (fun i => if i = 0 then AttemptOutcome.failure "read ECONNRESET"
        else AttemptOutcome.success (some 42)) = (7, 1, []) := by
    simp [countPreciselyRun, countPreciselyGo, h]
  refine ⟨he, ?_⟩
  rw [he]
  decide

/-- The `processWindow` queue-row update never changes the row's `id`. -/
theorem applyOutcome_id (maxA : Nat) (o : ProcessOutcome) (r : EmbedQueueRow) :
    (applyOutcome maxA o r).id = r.id := by
  cases o <;> rfl

/-- The `processWindow` queue-row update never decreases `attempts`. -/
theorem applyOutcome_attempts (maxA : Nat) (o : ProcessOutcome)
    (r : EmbedQueueRow) :
    r.attempts ≤ (applyOutcome maxA o r).attempts := by
  cases o <;> simp [applyOutcome]

/-- Lookup by row id through the worker's guarded update map. -/
theorem queueStep_process_find? (maxA : Nat) (queue : List EmbedQueueRow)
    (pid : String) (o : ProcessOutcome) (id : String) :
    List.find? (fun r => r.id = id)
        (queueStep maxA queue (QueueEvent.process pid o)) =
      (List.find? (fun r => r.id = id) queue).map
        (fun r => if r.id = pid ∧ r.status = QueueStatus.ready
          then applyOutcome maxA o r else r) := by
  show List.find? _ (queue.map _) = _
  rw [List.find?_map]
  have hp : ((fun r : EmbedQueueRow => decide (r.id = id)) ∘
      (fun r => if r.id = pid ∧ r.status = QueueStatus.ready
        then applyOutcome maxA o r else r)) =
      (fun r : EmbedQueueRow => decide (r.id = id)) := by
    funext r
    simp only [Function.comp_apply]
    split
    · rw [applyOutcome_id]
    · rfl
  rw [hp]

/-- A row found by id survives the duplicate-ignoring enqueue unchanged. -/
theorem find?_enqueue_some (wids : List String) (id : String)
    (r : EmbedQueueRow) :
    ∀ queue : List EmbedQueueRow,
      List.find? (fun x => x.id = id) queue = some r →
      List.find? (fun x => x.id = id) (enqueueWindows queue wids) = some r := by
  induction wids with
  | nil => exact fun queue h => h
  | cons w ws ih =>
    intro queue h
    have hcons : enqueueWindows queue (w :: ws) =
        enqueueWindows
          (if queue.any (fun x => x.window_id = w) then queue
            else queue ++ [freshQueueRow w]) ws := rfl
    rw [hcons]
    apply ih
    split
    · exact h
    · rw [List.find?_append, h]
      rfl

/-- Single-event monotonicity: one enqueue or one worker claim-and-update
keeps `done`/`failed` rows terminal and never decreases `attempts`. -/
theorem queueStep_mono (maxA : Nat) (queue : List EmbedQueueRow)
    (e : QueueEvent) (id : String) :
    (qStatusOf queue id = some QueueStatus.done →
      qStatusOf (queueStep maxA queue e) id = some QueueStatus.done) ∧
    (qStatusOf queue id = some QueueStatus.failed →
      qStatusOf (queueStep maxA queue e) id = some QueueStatus.failed) ∧
    qAttemptsOf queue id ≤ qAttemptsOf (queueStep maxA queue e) id := by
  cases e with
  | enqueue wids =>
    cases h : List.find? (fun x => x.id = id) queue with
    | none =>
      refine ⟨?_, ?_, ?_⟩
      · intro hc
        rw [qStatusOf, h] at hc
        simp at hc
      · intro hc
        rw [qStatusOf, h] at hc
        simp at hc
      · rw [qAttemptsOf, h]
        simp
    | some r =>
      have h2 := find?_enqueue_some wids id r queue h
      refine ⟨?_, ?_, ?_⟩ <;>
        simp [qStatusOf, qAttemptsOf, queueStep, h, h2]
  | process pid o =>
    have hf := queueStep_process_find? maxA queue pid o id
    cases h : List.find? (fun x => x.id = id) queue with
    | none =>
      rw [h] at hf
      refine ⟨?_, ?_, ?_⟩
      · intro hc
        rw [qStatusOf, h] at hc
        simp at hc
      · intro hc
        rw [qStatusOf, h] at hc
        simp at hc
      · rw [qAttemptsOf, h]
        simp
    | some r =>
      rw [h] at hf
      refine ⟨?_, ?_, ?_⟩
      · intro hc
        rw [qStatusOf, h] at hc
        simp only [Option.map_some'] at hc
        have hs : r.status = QueueStatus.done := by
          injection hc
        rw [qStatusOf, hf]
        simp [hs]
      · intro hc
        rw [qStatusOf, h] at hc
        simp only [Option.map_some'] at hc
        have hs : r.status = QueueStatus.failed := by
          injection hc
        rw [qStatusOf, hf]
        simp [hs]
      · rw [qAttemptsOf, qAttemptsOf, h, hf]
        simp only [Option.map_some', Option.getD_some]
        split
        · exact applyOutcome_attempts maxA o r
        · exact le_rfl

/-- Trace monotonicity, by induction over the event sequence. -/
theorem queueRun_mono (maxA : Nat) (events : List QueueEvent) :
    ∀ (queue : List EmbedQueueRow) (id : String),
      (qStatusOf queue id = some QueueStatus.done →
        qStatusOf (queueRun maxA queue events) id = some QueueStatus.done) ∧
      (qStatusOf queue id = some QueueStatus.failed →
        qStatusOf (queueRun maxA queue events) id = some QueueStatus.failed) ∧
      qAttemptsOf queue id ≤ qAttemptsOf (queueRun maxA queue events) id := by
  induction events with
  | nil => exact fun queue id => ⟨fun h => h, fun h => h, le_rfl⟩
  | cons e es ih =>
    intro queue id
    have h1 := queueStep_mono maxA queue e id
    have h2 := ih (queueStep maxA queue e) id
    exact ⟨fun h => h2.1 (h1.1 h), fun h => h2.2.1 (h1.2.1 h),
      le_trans h1.2.2 h2.2.2⟩

/-- C8.  Over every sequence of orchestrator enqueues (duplicate-ignoring on
`window_id`) and worker claim-and-update steps (which only touch `ready`
rows), an `embed_queue` row's status never leaves `done` or `failed`, and its
`attempts` value is non-decreasing. -/
theorem C8_queue_monotonicity (maxA : Nat) (queue : List EmbedQueueRow)
    (events : List QueueEvent) (id : String) :
    (qStatusOf queue id = some QueueStatus.done →
      qStatusOf (queueRun maxA queue events) id = some QueueStatus.done) ∧
    (qStatusOf queue id = some QueueStatus.failed →
      qStatusOf (queueRun maxA queue events) id = some QueueStatus.failed) ∧
    qAttemptsOf queue id ≤ qAttemptsOf (queueRun maxA queue events) id :=
  queueRun_mono maxA events queue id

/-- C8 witness: a `done` row stays `done` and its attempts value survives an
enqueue of its window id plus a worker failure event. -/
theorem C8_queue_monotonicity_witness :
    qStatusOf (queueRun 5
        [{ id := "q:w1", window_id := "w1", priority := 0,
           status := QueueStatus.done, attempts := 2 }]
        [QueueEvent.enqueue ["w1", "w2"],
         QueueEvent.process "q:w1" ProcessOutcome.processFail]) "q:w1" =
      some QueueStatus.done ∧
    2 ≤ qAttemptsOf (queueRun 5
        [{ id := "q:w1", window_id := "w1", priority := 0,
           status := QueueStatus.done, attempts := 2 }]
        [QueueEvent.enqueue ["w1", "w2"],
         QueueEvent.process "q:w1" ProcessOutcome.processFail]) "q:w1" := by
  have h := C8_queue_monotonicity 5
    [{ id := "q:w1", window_id := "w1", priority := 0,
       status := QueueStatus.done, attempts := 2 }]
    [QueueEvent.enqueue ["w1", "w2"],
     QueueEvent.process "q:w1" ProcessOutcome.processFail] "q:w1"
  exact ⟨h.1 (by decide), le_trans (by decide) h.2.2⟩

/-- `getLast?` yields a member of the list. -/
theorem mem_of_getLast?_eq {α : Type _} {l : List α} {a : α}
    (h : l.getLast? = some a) : a ∈ l := by
  induction l with
  | nil => simp at h
  | cons b t ih =>
    cases t with
    | nil =>
      simp at h
      simp [h]
    | cons c u =>
      rw [List.getLast?_cons_cons] at h
      exact List.mem_cons_of_mem b (ih h)

/-- In an ascending list, the first element is at most the last. -/
theorem pairwise_head?_getLast? {bs : List DiscordMessage}
    (hp : bs.Pairwise byCreatedAt) {h l : DiscordMessage}
    (hh : bs.head? = some h) (hl : bs.getLast? = some l) :
    h.createdAt ≤ l.createdAt := by
  cases bs with
  | nil => simp at hh
  | cons b t =>
    simp only [List.head?_cons, Option.some.injEq] at hh
    subst hh
    cases t with
    | nil =>
      simp at hl
      subst hl
      exact le_rfl
    | cons c u =>
      rw [List.getLast?_cons_cons] at hl
      exact List.rel_of_pairwise_cons hp (mem_of_getLast?_eq hl)

/-- The overlap carried into the fresh buffer is a sublist of the old one. -/
theorem applyOverlap_sublist (l : List DiscordMessage) (n : Nat) :
    (applyOverlap l n).Sublist l := by
  unfold applyOverlap
  split
  · exact List.nil_sublist l
  · exact List.drop_sublist _ _

/-- A non-empty list has a last element. -/
theorem exists_getLast? {α : Type _} (l : List α) (h : l ≠ []) :
    ∃ a, l.getLast? = some a := by
  cases hl : l.getLast? with
  | some a => exact ⟨a, rfl⟩
  | none =>
    rw [List.getLast?_eq_none_iff] at hl
    exact absurd hl h

/-- `flush` preserves the chunking invariant: the emitted window arises from
the (ascending, non-empty) buffer — itself a sublist of the processed input —
the carried overlap stays an ascending bounded sublist, and the sequence
numbers extend `1, 2, …`. -/
theorem flushState_inv (tc : TokenCounterModel) (cfg : ChunkingConfig)
    (done : List DiscordMessage) (st : ChunkState)
    (rest : List DiscordMessage) (h : ChunkInv done st rest) :
    ChunkInv done (flushState tc cfg st) rest := by
  obtain ⟨hpw, hbound, hsub, hout, hseq, hlen⟩ := h
  unfold flushState
  split
  case isTrue => exact ⟨hpw, hbound, hsub, hout, hseq, hlen⟩
  case isFalse hne =>
    have hnil : st.buffer ≠ [] := by
      intro hb
      exact hne (by rw [hb]; rfl)
    unfold ChunkInv
    refine ⟨?_, ?_, ?_, ?_, ?_, ?_⟩
    · exact List.Pairwise.sublist (applyOverlap_sublist _ _) hpw
    · intro b hb r hr
      exact hbound b ((applyOverlap_sublist _ _).subset hb) r hr
    · exact (applyOverlap_sublist _ _).trans hsub
    · intro w hw
      rw [List.mem_append] at hw
      cases hw with
      | inl hw => exact hout w hw
      | inr hw =>
        rw [List.mem_singleton] at hw
        subst hw
        refine ⟨st.buffer, ⟨hnil, rfl, hpw, ?_, ?_⟩, hsub⟩
        · cases hb : st.buffer with
          | nil => exact absurd hb hnil
          | cons x xs => simp [hb]
        · obtain ⟨y, hy⟩ := exists_getLast? st.buffer hnil
          rw [hy]
          simp [hy]
    · simp only [List.map_append, List.map_cons, List.map_nil,
        List.length_append, List.length_cons, List.length_nil,
        List.range'_concat, Nat.one_mul, Nat.zero_add, Nat.add_zero,
        hseq, hlen]
      simp [Nat.add_comm]
    · simp only [List.length_append, List.length_cons, List.length_nil,
        Nat.zero_add, Nat.add_zero, hlen]

/-- Appending the incoming message to the buffer preserves the invariant,
the processed prefix growing by that message. -/
theorem append_msg_inv (done : List DiscordMessage) (st1 : ChunkState)
    (m : DiscordMessage) (rest : List DiscordMessage)
    (h1 : ChunkInv done st1 (m :: rest))
    (hm : ∀ r ∈ rest, m.createdAt ≤ r.createdAt) (budget : Nat) (ts : Int) :
    ChunkInv (done ++ [m])
      { st1 with
          buffer := st1.buffer ++ [m],
          tokenBudget := budget,
          lastTimestamp := ts } rest := by
  obtain ⟨hpw, hbound, hsub, hout, hseq, hlen⟩ := h1
  unfold ChunkInv
  refine ⟨?_, ?_, ?_, ?_, hseq, hlen⟩
  · show List.Pairwise byCreatedAt (st1.buffer ++ [m])
    rw [List.pairwise_append]
    refine ⟨hpw, List.pairwise_singleton _ _, ?_⟩
    intro a ha b hb
    rw [List.mem_singleton] at hb
    subst hb
    exact hbound a ha _ (List.mem_cons_self _ rest)
  · intro b hb r hr
    show b.createdAt ≤ r.createdAt
    have hb' : b ∈ st1.buffer ++ [m] := hb
    rw [List.mem_append] at hb'
    cases hb' with
    | inl hbl => exact hbound b hbl r (List.mem_cons_of_mem m hr)
    | inr hbr =>
      rw [List.mem_singleton] at hbr
      subst hbr
      exact hm r hr
  · exact List.Sublist.append hsub (List.Sublist.refl [m])
  · intro w hw
    obtain ⟨bs, hbs, hbssub⟩ := hout w hw
    exact ⟨bs, hbs, hbssub.trans (List.sublist_append_left done [m])⟩

/-- One loop iteration preserves the invariant. -/
theorem stepMsg_inv (tc : TokenCounterModel) (cfg : ChunkingConfig)
    (done : List DiscordMessage) (st : ChunkState) (m : DiscordMessage)
    (rest : List DiscordMessage) (h : ChunkInv done st (m :: rest))
    (hm : ∀ r ∈ rest, m.createdAt ≤ r.createdAt) :
    ChunkInv (done ++ [m]) (stepMsg tc cfg st m) rest := by
  obtain ⟨hpw, hbound, hsub, hout, hseq, hlen⟩ := h
  unfold stepMsg
  split
  case isTrue hb =>
    unfold ChunkInv
    refine ⟨List.pairwise_singleton _ _, ?_, ?_, ?_, hseq, hlen⟩
    · intro b hb' r hr
      rw [List.mem_singleton] at hb'
      subst hb'
      exact hm r hr
    · exact List.sublist_append_right done [m]
    · intro w hw
      obtain ⟨bs, hbs, hbssub⟩ := hout w hw
      exact ⟨bs, hbs, hbssub.trans (List.sublist_append_left done [m])⟩
  case isFalse hb =>
    have h1 : ChunkInv done
        (if (wouldOverflowB tc cfg st m || softBreakB cfg st m) = true
          then flushState tc cfg st else st) (m :: rest) := by
      split
      · exact flushState_inv tc cfg done st _
          ⟨hpw, hbound, hsub, hout, hseq, hlen⟩
      · exact ⟨hpw, hbound, hsub, hout, hseq, hlen⟩
    split
    case isTrue hc =>
      exact append_msg_inv done _ m rest (by rw [if_pos hc] at h1; exact h1)
        hm _ _
    case isFalse hc =>
      exact append_msg_inv done _ m rest (by rw [if_neg hc] at h1; exact h1)
        hm _ _

/-- The whole loop preserves the invariant for a sorted input, the processed
prefix absorbing the whole remaining input. -/
theorem chunkLoop_inv (tc : TokenCounterModel) (cfg : ChunkingConfig) :
    ∀ (rest : List DiscordMessage) (st : ChunkState)
      (done : List DiscordMessage), ChunkInv done st rest →
      rest.Pairwise byCreatedAt →
      ChunkInv (done ++ rest) (rest.foldl (stepMsg tc cfg) st) [] := by
  intro rest
  induction rest with
  | nil =>
    intro st done h _
    rw [List.append_nil]
    exact h
  | cons m rest' ih =>
    intro st done h hp
    rw [List.foldl_cons]
    rw [List.pairwise_cons] at hp
    have hstep := stepMsg_inv tc cfg done st m rest' h (fun r hr => hp.1 r hr)
    have hrec := ih (stepMsg tc cfg st m) (done ++ [m]) hstep hp.2
    rw [List.append_assoc, List.singleton_append] at hrec
    exact hrec

/-- C6.  For a sorted input (ascending `createdAt`), every window the chunker
emits arises from a non-empty ascending sublist of the input messages — its
`messageIds` are exactly their ids in ascending `createdAt` order,
`startAt`/`endAt` are the first and last `createdAt` of that sublist (hence
`startAt ≤ endAt`) — and the emitted `windowSeq` values are exactly
`1, 2, …` (start at 1, strictly increasing). -/
theorem C6_chunk_window_invariants (tc : TokenCounterModel)
    (cfg : ChunkingConfig) (msgs : List DiscordMessage)
    (hsorted : msgs.Pairwise byCreatedAt) :
    (∀ w ∈ chunk tc cfg msgs,
      (∃ bs, WindowFromMessages w bs ∧ bs.Sublist msgs) ∧
        w.messageIds ≠ [] ∧ w.startAt ≤ w.endAt) ∧
    (chunk tc cfg msgs).map (·.windowSeq) =
      List.range' 1 (chunk tc cfg msgs).length := by
  cases msgs with
  | nil => simp [chunk]
  | cons m0 tl =>
    have hinit : ChunkInv []
        { out := [], seq := 1, buffer := [], tokenBudget := 0,
          lastTimestamp := m0.createdAt } (m0 :: tl) := by
      unfold ChunkInv
      refine ⟨List.Pairwise.nil, ?_, List.Sublist.refl [], ?_, rfl, rfl⟩
      · intro b hb
        simp at hb
      · intro w hw
        simp at hw
    have hfin := chunkLoop_inv tc cfg (m0 :: tl) _ [] hinit hsorted
    rw [List.nil_append] at hfin
    have hfl := flushState_inv tc cfg (m0 :: tl) _ [] hfin
    obtain ⟨_, _, _, hout, hseq, _⟩ := hfl
    constructor
    · intro w hw
      obtain ⟨bs, hbs, hbssub⟩ := hout w hw
      obtain ⟨hne, hids, hpw, hh, hl⟩ := hbs
      refine ⟨⟨bs, ⟨hne, hids, hpw, hh, hl⟩, hbssub⟩, ?_, ?_⟩
      · rw [hids]
        simpa using hne
      · obtain ⟨x, hx1, hx2⟩ := Option.map_eq_some'.mp hh
        obtain ⟨y, hy1, hy2⟩ := Option.map_eq_some'.mp hl
        have hle := pairwise_head?_getLast? hpw hx1 hy1
        rw [hx2, hy2] at hle
        exact hle
    · exact hseq

/-- C6 witness at the soft-gap scenario input. -/
theorem C6_chunk_window_invariants_witness :
    (chunk tcScenario cfgDefault scenarioMessages).map (·.windowSeq) =
      List.range' 1 (chunk tcScenario cfgDefault scenarioMessages).length :=
  (C6_chunk_window_invariants tcScenario cfgDefault scenarioMessages
    (by decide)).2

end RagBot
